import Mathlib

/-!
Shallow embedding of the numeric-normalization and selective-upsert core of
`main.py` (functions `parse_number` and `upsert_historico_selectivo`).

Modelling choices:
* Python floats are modelled as rationals (`ℚ`); `float(s)` is modelled on
  finite decimal notation (optional sign, digits, at most one point), which is
  the only notation the scraped tokens and the code's own transformations use.
* Python strings are modelled as `List Char` (via `String.data`); `str.strip`
  trims ASCII whitespace.
* A pandas DataFrame row is a record of raw cell values; the result of
  `pd.to_datetime(..., errors='coerce')` on the date column is carried as an
  `Option ℕ` (a date ordinal or `none` for NaT) since pandas date parsing is an
  external collaborator.  A numeric cell whose column is absent is represented
  by the `None` cell, which parses to `none` exactly as an absent column does
  in the source (`parse_number(row[c]) if c and row.get(c) is not None else None`).
-/

/-- Python's `str.strip()`: drop whitespace from both ends. -/
def trimChars (l : List Char) : List Char :=
  ((l.dropWhile Char.isWhitespace).reverse.dropWhile Char.isWhitespace).reverse

/-- Python's `c in s` for a single character. -/
def containsChar (l : List Char) (c : Char) : Bool :=
  l.any (fun a => a == c)

/-- Python's `s.count(c)` for a single character. -/
def countChar (l : List Char) (c : Char) : ℕ :=
  l.count c

/-- Python's `s.rfind(c)`: highest index of `c` in `l`, or `-1` if absent. -/
def rfindChar (l : List Char) (c : Char) : Int :=
  match l with
  | [] => -1
  | a :: t =>
    let r := rfindChar t c
    if 0 ≤ r then r + 1 else if a = c then 0 else -1

/-- Python's `s.replace(c, "")` for a single character. -/
def removeChar (l : List Char) (c : Char) : List Char :=
  l.filter (fun a => !(a == c))

/-- Python's `s.replace(a, b)` for single characters. -/
def replaceChar (l : List Char) (a b : Char) : List Char :=
  l.map (fun c => if c = a then b else c)

/-- Numeric value of a decimal digit character. -/
def digitVal (c : Char) : ℕ := c.toNat - 48

/-- Value of a most-significant-first digit string. -/
def natOfDigits (l : List Char) : ℕ :=
  l.foldl (fun a c => 10 * a + digitVal c) 0

/-- Unsigned part of Python's `float(s)` on finite decimal notation:
digits with at most one decimal point and at least one digit. -/
def parseUnsignedFloat (l : List Char) : Option ℚ :=
  if (l.all (fun c => c.isDigit || c == '.') && l.count '.' ≤ 1)
      && l.any Char.isDigit then
    let ip := l.takeWhile (fun c => !(c == '.'))
    let fp := (l.dropWhile (fun c => !(c == '.'))).drop 1
    some ((natOfDigits ip : ℚ) + (natOfDigits fp : ℚ) / 10 ^ fp.length)
  else Option.none

/-- Model of Python's `float(s)` on finite decimal notation (the tokens this
program feeds it): optional sign, then digits with at most one point. -/
def parseFloatQ (l : List Char) : Option ℚ :=
  match l with
  | [] => Option.none
  | a :: t =>
    if a = '-' then (parseUnsignedFloat t).map (fun q => -q)
    else if a = '+' then parseUnsignedFloat t
    else parseUnsignedFloat (a :: t)

/-- Python's `int(x)` on a float: truncation toward zero. -/
def truncQ (q : ℚ) : ℤ := if 0 ≤ q then ⌊q⌋ else ⌈q⌉

/-- A Python number as produced by `parse_number`: an `int` or a `float`. -/
inductive PyNum where
  | int (n : ℤ)
  | float (q : ℚ)
deriving DecidableEq, Repr

/-- The numeric value of a `PyNum`. -/
def PyNum.toQ : PyNum → ℚ
  | .int n => n
  | .float q => q

/-- Python's `isinstance(x, float)`. -/
def PyNum.isFloat : PyNum → Bool
  | .int _ => false
  | .float _ => true

/-- A raw cell value as `parse_number` receives it: `None`, an `int`, a
`float`, or a string. -/
inductive PyVal where
  | none
  | int (n : ℤ)
  | float (q : ℚ)
  | str (s : String)
deriving DecidableEq, Repr

/-- Separator disambiguation of `parse_number` (main.py lines 45-73), applied
to the stripped token. -/
def transformSeparators (s : List Char) : List Char :=
  let coma_pos := rfindChar s ','
  let punto_pos := rfindChar s '.'
  if containsChar s ',' && !(containsChar s '.') then
    removeChar s ','
  else if containsChar s '.' && !(containsChar s ',') then
    if countChar s '.' > 1 then
      removeChar s '.'
    else if 0 < punto_pos then
      if 3 < (s.length : Int) - punto_pos - 1 then removeChar s '.' else s
    else s
  else if containsChar s ',' && containsChar s '.' then
    if coma_pos > punto_pos then
      replaceChar (removeChar s '.') ',' '.'
    else
      removeChar s ','
  else s

/-- Conversion and validation tail of `parse_number` (main.py lines 76-82):
`float(s)`, reject negatives, truncate when `is_int`. -/
def pyCheck (o : Option ℚ) (is_int : Bool) : Option PyNum :=
  match o with
  | Option.none => Option.none
  | some num =>
    if num < 0 then Option.none
    else some (if is_int then PyNum.int (truncQ num) else PyNum.float num)

/-- Embedding of `parse_number` (main.py lines 28-86). -/
def parse_number (val : PyVal) (is_int : Bool) : Option PyNum :=
  match val with
  | PyVal.none => Option.none
  | PyVal.int n => some (if is_int then PyNum.int n else PyNum.float (n : ℚ))
  | PyVal.float q => some (if is_int then PyNum.int (truncQ q) else PyNum.float q)
  | PyVal.str s0 =>
    let s := trimChars s0.data
    if s = [] ∨ s = ['-'] then Option.none
    else pyCheck (parseFloatQ (transformSeparators s)) is_int

/-- ASCII lowercasing, modelling Python's `str.lower()` on column names. -/
def lowerChar (c : Char) : Char :=
  if 'A' ≤ c ∧ c ≤ 'Z' then Char.ofNat (c.toNat + 32) else c

/-- Python's `p in l` substring test. -/
def substringOf (p l : List Char) : Bool :=
  l.tails.any (fun t => p.isPrefixOf t)

/-- The column search of `upsert_historico_selectivo` (main.py lines 99-103):
is there a column whose name contains `name`, case-insensitively? -/
def hasCol (cols : List String) (name : String) : Bool :=
  cols.any (fun c => substringOf (name.data.map lowerChar) (c.data.map lowerChar))

/-- One raw row of the fetched DataFrame.  `fecha` carries the result of
`pd.to_datetime(..., errors='coerce')` on the date cell (a date ordinal, or
`none` for NaT); the five numeric cells are raw values still to be parsed. -/
structure RawRow where
  fecha : Option ℕ
  apertura : PyVal
  maximo : PyVal
  minimo : PyVal
  cierre : PyVal
  volumen : PyVal
deriving DecidableEq, Repr

/-- The CandidateSet: the fetched DataFrame's column names and rows. -/
structure CandidateSet where
  cols : List String
  rows : List RawRow
deriving DecidableEq, Repr

/-- A stored row of the `historicos` table for one date (the ExistingSet is a
date-keyed list of these, with at most one row per date). -/
structure ExRow where
  apertura : Option PyNum
  maximo : Option PyNum
  minimo : Option PyNum
  cierre : Option PyNum
  volumen : Option PyNum
deriving DecidableEq, Repr

/-- A record of `records_to_write`: the date plus the five parsed fields
(the constant `ticker_id` component is omitted). -/
structure Bar where
  fecha : ℕ
  apertura : Option PyNum
  maximo : Option PyNum
  minimo : Option PyNum
  cierre : Option PyNum
  volumen : Option PyNum
deriving DecidableEq, Repr

/-- Python's `existing_map.get(fecha)`: lookup in a date-keyed map. -/
def lookupDate (m : List (ℕ × ExRow)) (d : ℕ) : Option ExRow :=
  match m with
  | [] => Option.none
  | p :: t => if p.1 = d then some p.2 else lookupDate t d

/-- `math.isclose(a, b, rel_tol=1e-9, abs_tol=1e-9)`, exact over `ℚ`. -/
def iscloseQ (a b : ℚ) : Bool :=
  decide (|a - b| ≤ max (1 / 10 ^ 9 * max |a| |b|) (1 / 10 ^ 9))

/-- The field-difference predicate `diff` (main.py lines 178-189): values
differ when exactly one is absent, or both are present and unequal — with the
`isclose` tolerance when either side is a float, exact equality otherwise. -/
def diff (a b : Option PyNum) : Bool :=
  match a, b with
  | Option.none, Option.none => false
  | Option.none, some _ => true
  | some _, Option.none => true
  | some x, some y =>
    if x.isFloat || y.isFloat then !(iscloseQ x.toQ y.toQ)
    else decide (x ≠ y)

/-- Parse the five numeric fields of a row whose date parsed to `d`
(main.py lines 161-165). -/
def parseBar (d : ℕ) (r : RawRow) : Bar :=
  { fecha := d
    apertura := parse_number r.apertura false
    maximo := parse_number r.maximo false
    minimo := parse_number r.minimo false
    cierre := parse_number r.cierre false
    volumen := parse_number r.volumen true }

/-- The implausible-price guard (main.py line 168):
`cierre is not None and cierre < 0.01`. -/
def lowClose (b : Bar) : Bool :=
  match b.cierre with
  | some n => decide (n.toQ < 1 / 100)
  | Option.none => false

/-- Does the parsed row differ from the stored row in any of the five fields
(main.py lines 191-195)? -/
def barDiffers (b : Bar) (e : ExRow) : Bool :=
  diff b.apertura e.apertura || diff b.maximo e.maximo || diff b.minimo e.minimo
    || diff b.cierre e.cierre || diff b.volumen e.volumen

/-- The body of the row loop (main.py lines 155-198), pushing one row through
the close guard, the existing lookup and the diff, updating
`(records_to_write, skipped)`. -/
def reconcileStep (em : List (ℕ × ExRow)) (acc : List Bar × ℕ) (r : RawRow) :
    List Bar × ℕ :=
  match r.fecha with
  | Option.none => acc
  | some d =>
    let b := parseBar d r
    if lowClose b then acc
    else
      match lookupDate em d with
      | Option.none => (acc.1 ++ [b], acc.2)
      | some e =>
        if barDiffers b e then (acc.1 ++ [b], acc.2) else (acc.1, acc.2 + 1)

/-- Embedding of `upsert_historico_selectivo` (main.py lines 91-230).  The
ExistingSet `em` stands for the batched DB read of lines 135-150; the returned
first component is the `records_to_write` list itself (the source returns its
length to the caller after handing the list to the storage upsert). -/
def upsert_historico_selectivo (em : List (ℕ × ExRow)) (cs : CandidateSet) :
    List Bar × ℕ × Option ℕ :=
  if cs.rows.isEmpty then ([], 0, Option.none)
  else if !(hasCol cs.cols "fecha") then ([], 0, Option.none)
  else
    let df := cs.rows.filter (fun r => r.fecha.isSome)
    if df.isEmpty then ([], 0, Option.none)
    else
      let fechas := (df.filterMap RawRow.fecha).dedup
      if fechas.isEmpty then ([], 0, Option.none)
      else
        let res := df.foldl (reconcileStep em) ([], 0)
        (res.1, res.2, some (fechas.foldl max 0))

/-- The parsed bar of a row, when its date is valid. -/
def toBar (r : RawRow) : Option Bar :=
  r.fecha.map (fun d => parseBar d r)

/-- All candidate bars with valid dates, in row order. -/
def candidateBars (cs : CandidateSet) : List Bar :=
  cs.rows.filterMap toBar

/-- Does the loop emit this bar (insert when its date is new, update when some
field differs), given the ExistingSet? -/
def emitsB (em : List (ℕ × ExRow)) (b : Bar) : Bool :=
  !lowClose b &&
    (match lookupDate em b.fecha with
     | Option.none => true
     | some e => barDiffers b e)

/-- Does the loop count this bar as skipped (existing row, no field differs)? -/
def skipsB (em : List (ℕ × ExRow)) (b : Bar) : Bool :=
  !lowClose b &&
    (match lookupDate em b.fecha with
     | Option.none => false
     | some e => !barDiffers b e)

/-- The stored row a written bar leaves behind. -/
def exOf (b : Bar) : ExRow :=
  { apertura := b.apertura, maximo := b.maximo, minimo := b.minimo
    cierre := b.cierre, volumen := b.volumen }

/-- Net effect on the stored map of upserting one written record, per the
`ON CONFLICT ... DO UPDATE SET` statement of main.py lines 207-221: insert the
row, or overwrite all five fields of the row already stored for that date. -/
def upsertOne (m : List (ℕ × ExRow)) (b : Bar) : List (ℕ × ExRow) :=
  (b.fecha, exOf b) :: m.filter (fun p => !(p.1 == b.fecha))

/-- Apply a whole write-set to the stored map (the storage collaborator's
`execute_values` batch). -/
def applyWrites (m : List (ℕ × ExRow)) (ws : List Bar) : List (ℕ × ExRow) :=
  ws.foldl upsertOne m

/-- The distinct valid dates of a CandidateSet (the source's `fechas`). -/
def validDates (cs : CandidateSet) : List ℕ :=
  (cs.rows.filterMap RawRow.fecha).dedup

/-- Decimal digit character of `n < 10`. -/
def digitChar (n : ℕ) : Char := Char.ofNat (48 + n)

/-- Decimal digit string of a natural number, most significant digit first. -/
def digitsOf (n : ℕ) : List Char :=
  if n < 10 then [digitChar n]
  else digitsOf (n / 10) ++ [digitChar (n % 10)]
termination_by n
decreasing_by exact Nat.div_lt_self (by omega) (by omega)

/-- Fewest decimal digits needed after the point to write `q` exactly, for
`q` with a short exact decimal rendering (at most six fractional digits, which
covers every value this development renders). -/
def decExp (q : ℚ) : ℕ :=
  if q.den = 1 then 0
  else if (q * 10).den = 1 then 1
  else if (q * 100).den = 1 then 2
  else if (q * 1000).den = 1 then 3
  else if (q * 10000).den = 1 then 4
  else if (q * 100000).den = 1 then 5
  else 6

/-- Model of Python's `str(v)` for a nonnegative float `v` with a short exact
decimal rendering: the integer part, a point, and the fractional digits (at
least one, as Python always prints one). -/
def renderChars (q : ℚ) : List Char :=
  let k := decExp q
  let m := (q * 10 ^ k).num.toNat
  if k = 0 then digitsOf m ++ ['.', '0']
  else
    digitsOf (m / 10 ^ k) ++ '.' ::
      (List.replicate (k - (digitsOf (m % 10 ^ k)).length) '0'
        ++ digitsOf (m % 10 ^ k))

/-- The canonical string rendering of a (nonnegative, short-decimal) value. -/
def renderFloat (q : ℚ) : String := String.mk (renderChars q)

/-- The spec's fallback reparse: strip every comma and dot, then parse. -/
def strippedFallback (s : List Char) : Option ℚ :=
  parseFloatQ (removeChar (removeChar s ',') '.')

/-- The canonical transformation the spec describes for a token holding both
separators: the one occurring later in the string is the decimal point (made
a `.`), the earlier one is the thousands separator (stripped). -/
def canonicalBoth (s : List Char) : List Char :=
  if rfindChar s ',' > rfindChar s '.' then
    replaceChar (removeChar s '.') ',' '.'
  else
    replaceChar (removeChar s ',') '.' '.'

/-- A CandidateSet with the rows the close guard drops removed. -/
def dropLowRows (cs : CandidateSet) : CandidateSet :=
  ⟨cs.cols, cs.rows.filter (fun r =>
    match r.fecha with
    | some d => !lowClose (parseBar d r)
    | Option.none => true)⟩

/-! Helper lemmas about `parse_number` on strings. -/

lemma parse_number_str_eq (s : String) (b : Bool) :
    parse_number (PyVal.str s) b =
      if trimChars s.data = [] ∨ trimChars s.data = ['-'] then Option.none
      else pyCheck (parseFloatQ (transformSeparators (trimChars s.data))) b := rfl

lemma pyCheck_some (num : ℚ) (b : Bool) :
    pyCheck (some num) b =
      if num < 0 then Option.none
      else some (if b then PyNum.int (truncQ num) else PyNum.float num) := rfl

lemma replaceChar_self (l : List Char) (c : Char) : replaceChar l c c = l := by
  unfold replaceChar
  have h : ∀ x : Char, (if x = c then c else x) = x := by
    intro x
    split
    · simp_all
    · rfl
  simp only [h, List.map_id']

lemma contains_ne_nil (s : List Char) (c : Char) (hc : c ≠ '-')
    (h : containsChar s c = true) : ¬(s = [] ∨ s = ['-']) := by
  rintro (rfl | rfl)
  · simp [containsChar] at h
  · simp [containsChar] at h
    exact hc h.symm

lemma transformSeparators_both (s : List Char)
    (h1 : containsChar s ',' = true) (h2 : containsChar s '.' = true) :
    transformSeparators s = canonicalBoth s := by
  unfold transformSeparators canonicalBoth
  simp only [h1, h2, Bool.not_true, Bool.and_false, Bool.true_and, Bool.and_self,
    Bool.false_eq_true, ite_false, ite_true, if_false, if_true]
  split
  · rfl
  · exact (replaceChar_self (removeChar s ',') '.').symm

lemma transformSeparators_single_dot (s : List Char)
    (h1 : containsChar s '.' = true) (h2 : containsChar s ',' = false)
    (h3 : countChar s '.' = 1) (h5 : 0 < rfindChar s '.') :
    transformSeparators s =
      (if 3 < (s.length : Int) - rfindChar s '.' - 1 then removeChar s '.'
       else s) := by
  unfold transformSeparators
  simp only [h1, h2, h3, Bool.not_true, Bool.not_false, Bool.and_false,
    Bool.true_and, Bool.false_and, Bool.and_true, Bool.and_self,
    Bool.false_eq_true, ite_false, ite_true, if_false, if_true]
  have hgt : ¬((1 : ℕ) > 1) := by omega
  rw [if_neg hgt, if_pos h5]

/-- C1: for a token holding both a comma and a dot, `parse_number` takes the
separator occurring later in the string as the decimal point and strips the
earlier one as the thousands separator, then parses the canonicalized token
(rejecting negatives); in particular both `"20,390.00"` and `"20.390,00"`
normalize to `20390.00`. -/
theorem parse_number_both_seps_later_decimal (s : List Char)
    (h1 : containsChar s ',' = true) (h2 : containsChar s '.' = true)
    (h3 : trimChars s = s) :
    parse_number (PyVal.str (String.mk s)) false =
        pyCheck (parseFloatQ (canonicalBoth s)) false ∧
      parse_number (PyVal.str "20,390.00") false = some (PyNum.float 20390) ∧
      parse_number (PyVal.str "20.390,00") false = some (PyNum.float 20390) := by
  refine ⟨?_, by with_unfolding_all rfl, by with_unfolding_all rfl⟩
  rw [parse_number_str_eq]
  have hdata : (String.mk s).data = s := rfl
  rw [hdata, h3, if_neg (contains_ne_nil s ',' (by decide) h1),
    transformSeparators_both s h1 h2]

theorem parse_number_both_seps_later_decimal_witness :
    parse_number (PyVal.str (String.mk ("20,390.00" : String).data)) false =
      pyCheck (parseFloatQ (canonicalBoth ("20,390.00" : String).data)) false :=
  (parse_number_both_seps_later_decimal ("20,390.00" : String).data
    (by decide) (by decide) (by decide)).1

/-- C2 counterexample: `parse_number("20.500", false)` is `20.5`, not
`20500.0` — three digits follow the dot, which is not more than three, so the
dot is kept as a decimal point; likewise a leading dot is kept even with four
digits after it (`".1234"` parses as `0.1234`, not `1234`). -/
theorem parse_number_20500_counterexample :
    parse_number (PyVal.str "20.500") false = some (PyNum.float (41 / 2)) ∧
      (41 / 2 : ℚ) ≠ 20500 ∧
      parse_number (PyVal.str ".1234") false = some (PyNum.float (617 / 5000)) ∧
      (617 / 5000 : ℚ) ≠ 1234 :=
  ⟨by with_unfolding_all rfl, by norm_num, by with_unfolding_all rfl, by norm_num⟩

/-- C2 as amended: for a token with exactly one dot, no comma, and the dot not
in the first position, `parse_number` strips the dot as a thousands separator
when more than three characters follow it and otherwise keeps it as the
decimal point; so `"20.500"` (three trailing digits) parses to `20.5` and
`"20.5"` parses to `20.5`. -/
theorem parse_number_single_dot_rule (s : List Char)
    (h1 : containsChar s '.' = true) (h2 : containsChar s ',' = false)
    (h3 : countChar s '.' = 1) (h4 : trimChars s = s)
    (h5 : 0 < rfindChar s '.') :
    parse_number (PyVal.str (String.mk s)) false =
        pyCheck (parseFloatQ
          (if 3 < (s.length : Int) - rfindChar s '.' - 1 then removeChar s '.'
           else s)) false ∧
      parse_number (PyVal.str "20.500") false = some (PyNum.float (41 / 2)) ∧
      parse_number (PyVal.str "20.5") false = some (PyNum.float (41 / 2)) := by
  refine ⟨?_, by with_unfolding_all rfl, by with_unfolding_all rfl⟩
  rw [parse_number_str_eq]
  have hdata : (String.mk s).data = s := rfl
  rw [hdata, h4, if_neg (contains_ne_nil s '.' (by decide) h1),
    transformSeparators_single_dot s h1 h2 h3 h5]

theorem parse_number_single_dot_rule_witness :
    parse_number (PyVal.str (String.mk ("20.500" : String).data)) false =
      pyCheck (parseFloatQ
        (if 3 < (("20.500" : String).data.length : Int)
              - rfindChar ("20.500" : String).data '.' - 1 then
          removeChar ("20.500" : String).data '.'
         else ("20.500" : String).data)) false :=
  (parse_number_single_dot_rule ("20.500" : String).data
    (by decide) (by decide) (by decide) (by decide) (by decide)).1

/-- C3 counterexample: on `"1,2,3.4.5"` the separator-disambiguation parse
fails and `parse_number` returns `None` directly, although the fallback the
spec describes (strip every comma and dot, reparse) would succeed with
`12345`. -/
theorem parse_number_no_fallback_counterexample :
    parse_number (PyVal.str "1,2,3.4.5") false = Option.none ∧
      parseFloatQ (transformSeparators (trimChars ("1,2,3.4.5" : String).data))
        = Option.none ∧
      strippedFallback ("1,2,3.4.5" : String).data = some 12345 :=
  ⟨by with_unfolding_all rfl, by with_unfolding_all rfl, by with_unfolding_all rfl⟩

/-- C3 as amended: whenever the primary separator-disambiguation parse of a
token fails, `parse_number` returns `None` immediately; no fallback reparse is
attempted. -/
theorem parse_number_failure_returns_none (s : String)
    (h : parseFloatQ (transformSeparators (trimChars s.data)) = Option.none) :
    parse_number (PyVal.str s) false = Option.none := by
  rw [parse_number_str_eq]
  split
  · rfl
  · rw [h]; rfl

theorem parse_number_failure_returns_none_witness :
    parse_number (PyVal.str "abc") false = Option.none :=
  parse_number_failure_returns_none "abc" (by with_unfolding_all rfl)

/-- C6 counterexample: a numeric input is passed through before the
negative-result rejection, so `parse_number(-5.0, false)` returns the negative
number `-5.0` rather than `Unparseable`. -/
theorem parse_number_negative_float_counterexample :
    parse_number (PyVal.float (-5)) false = some (PyNum.float (-5)) ∧
      (PyNum.float (-5)).toQ < 0 :=
  ⟨rfl, by norm_num [PyNum.toQ]⟩

/-- C6 as amended: for every string input (and for `None`), `parse_number`
never returns a negative number — the empty string, a bare `-`, and
non-numeric garbage map to `None`, and a parse with a negative result such as
`"-5"` is rejected as `None`, while `"1234"` parses to `1234.0`. -/
theorem parse_number_string_nonneg (s : String) (b : Bool) :
    (parse_number (PyVal.str s) b).all (fun v => decide (0 ≤ v.toQ)) = true ∧
      parse_number PyVal.none b = Option.none ∧
      parse_number (PyVal.str "") false = Option.none ∧
      parse_number (PyVal.str "-") false = Option.none ∧
      parse_number (PyVal.str "-5") false = Option.none ∧
      parse_number (PyVal.str "1234") false = some (PyNum.float 1234) := by
  refine ⟨?_, rfl, by with_unfolding_all rfl, by with_unfolding_all rfl,
    by with_unfolding_all rfl, by with_unfolding_all rfl⟩
  rw [parse_number_str_eq]
  split
  · rfl
  · cases hp : parseFloatQ (transformSeparators (trimChars s.data)) with
    | none => rfl
    | some num =>
      rw [pyCheck_some]
      by_cases hneg : num < 0
      · rw [if_pos hneg]; rfl
      · rw [if_neg hneg]
        push_neg at hneg
        cases b with
        | false =>
          show decide (0 ≤ (PyNum.float num).toQ) = true
          exact decide_eq_true hneg
        | true =>
          show decide (0 ≤ (PyNum.int (truncQ num)).toQ) = true
          refine decide_eq_true ?_
          show (0 : ℚ) ≤ ((truncQ num : ℤ) : ℚ)
          have h0 : 0 ≤ truncQ num := by
            unfold truncQ
            rw [if_pos hneg]
            exact Int.floor_nonneg.mpr hneg
          exact_mod_cast h0

/-- C10: an already-numeric input (`int` or `float`) is returned directly
after float cast — truncated toward zero when `as_integer` — bypassing
separator disambiguation and the negative-result rejection; in particular
`parse_number(-5.0, false) = -5.0` while `parse_number("-5", false) = None`. -/
theorem parse_number_numeric_passthrough (n : ℤ) (q : ℚ) (b : Bool) :
    parse_number (PyVal.int n) b
        = some (if b then PyNum.int n else PyNum.float (n : ℚ)) ∧
      parse_number (PyVal.float q) b
        = some (if b then PyNum.int (truncQ q) else PyNum.float q) ∧
      parse_number (PyVal.float (-5)) false = some (PyNum.float (-5)) ∧
      parse_number (PyVal.str "-5") false = Option.none :=
  ⟨rfl, rfl, rfl, by with_unfolding_all rfl⟩

/-! Helper lemmas about the reconciliation loop. -/

lemma parseBar_fecha (d : ℕ) (r : RawRow) : (parseBar d r).fecha = d := rfl

lemma foldl_reconcileStep (em : List (ℕ × ExRow)) (rows : List RawRow)
    (ws : List Bar) (sk : ℕ) :
    rows.foldl (reconcileStep em) (ws, sk) =
      (ws ++ (rows.filterMap toBar).filter (emitsB em),
       sk + ((rows.filterMap toBar).filter (skipsB em)).length) := by
  induction rows generalizing ws sk with
  | nil => simp
  | cons r rest ih =>
    rw [List.foldl_cons]
    cases hf : r.fecha with
    | none =>
      have hstep : reconcileStep em (ws, sk) r = (ws, sk) := by
        unfold reconcileStep; rw [hf]
      have htb : toBar r = Option.none := by simp [toBar, hf]
      rw [hstep, ih, List.filterMap_cons, htb]
    | some d =>
      have htb : toBar r = some (parseBar d r) := by simp [toBar, hf]
      rw [List.filterMap_cons, htb]
      by_cases hl : lowClose (parseBar d r) = true
      · have hstep : reconcileStep em (ws, sk) r = (ws, sk) := by
          unfold reconcileStep; rw [hf]; simp [hl]
        have hem : emitsB em (parseBar d r) = false := by simp [emitsB, hl]
        have hsk : skipsB em (parseBar d r) = false := by simp [skipsB, hl]
        rw [hstep, ih, List.filter_cons, List.filter_cons, hem, hsk]
        simp
      · have hl2 : lowClose (parseBar d r) = false := by
          revert hl; cases lowClose (parseBar d r) <;> simp
        cases hlk : lookupDate em d with
        | none =>
          have hstep : reconcileStep em (ws, sk) r = (ws ++ [parseBar d r], sk) := by
            unfold reconcileStep; rw [hf]; simp [hl2, hlk]
          have hem : emitsB em (parseBar d r) = true := by
            simp [emitsB, hl2, parseBar_fecha, hlk]
          have hsk : skipsB em (parseBar d r) = false := by
            simp [skipsB, hl2, parseBar_fecha, hlk]
          rw [hstep, ih, List.filter_cons, List.filter_cons, hem, hsk]
          simp
        | some e =>
          by_cases hd : barDiffers (parseBar d r) e = true
          · have hstep : reconcileStep em (ws, sk) r = (ws ++ [parseBar d r], sk) := by
              unfold reconcileStep; rw [hf]; simp [hl2, hlk, hd]
            have hem : emitsB em (parseBar d r) = true := by
              simp [emitsB, hl2, parseBar_fecha, hlk, hd]
            have hsk : skipsB em (parseBar d r) = false := by
              simp [skipsB, hl2, parseBar_fecha, hlk, hd]
            rw [hstep, ih, List.filter_cons, List.filter_cons, hem, hsk]
            simp
          · have hd2 : barDiffers (parseBar d r) e = false := by
              revert hd; cases barDiffers (parseBar d r) e <;> simp
            have hstep : reconcileStep em (ws, sk) r = (ws, sk + 1) := by
              unfold reconcileStep; rw [hf]; simp [hl2, hlk, hd2]
            have hem : emitsB em (parseBar d r) = false := by
              simp [emitsB, hl2, parseBar_fecha, hlk, hd2]
            have hsk : skipsB em (parseBar d r) = true := by
              simp [skipsB, hl2, parseBar_fecha, hlk, hd2]
            rw [hstep, ih, List.filter_cons, List.filter_cons, hem, hsk]
            simp
            omega

lemma filterMap_toBar_filter (rows : List RawRow) :
    (rows.filter (fun r => r.fecha.isSome)).filterMap toBar
      = rows.filterMap toBar := by
  induction rows with
  | nil => rfl
  | cons r rest ih =>
    cases hf : r.fecha with
    | none =>
      have htb : toBar r = Option.none := by simp [toBar, hf]
      rw [List.filter_cons, List.filterMap_cons, htb]
      simp [hf, ih]
    | some d =>
      rw [List.filter_cons]
      simp only [hf, Option.isSome_some, ite_true, if_true]
      rw [List.filterMap_cons, List.filterMap_cons, ih]

lemma filterMap_fecha_filter (rows : List RawRow) :
    (rows.filter (fun r => r.fecha.isSome)).filterMap RawRow.fecha
      = rows.filterMap RawRow.fecha := by
  induction rows with
  | nil => rfl
  | cons r rest ih =>
    cases hf : r.fecha with
    | none =>
      rw [List.filter_cons, List.filterMap_cons]
      simp [hf, ih]
    | some d =>
      rw [List.filter_cons]
      simp only [hf, Option.isSome_some, ite_true, if_true]
      rw [List.filterMap_cons, List.filterMap_cons, ih, hf]

lemma filterMap_toBar_of_fecha_nil (rows : List RawRow)
    (h : rows.filterMap RawRow.fecha = []) : rows.filterMap toBar = [] := by
  induction rows with
  | nil => rfl
  | cons r rest ih =>
    rw [List.filterMap_cons] at h ⊢
    cases hf : r.fecha with
    | none =>
      rw [hf] at h
      have htb : toBar r = Option.none := by simp [toBar, hf]
      rw [htb]
      exact ih h
    | some d => rw [hf] at h; simp at h

lemma upsert_no_datecol (em : List (ℕ × ExRow)) (cs : CandidateSet)
    (h : hasCol cs.cols "fecha" = false) :
    upsert_historico_selectivo em cs = ([], 0, Option.none) := by
  unfold upsert_historico_selectivo
  rw [h]
  split
  · rfl
  · rfl

lemma upsert_spec (em : List (ℕ × ExRow)) (cs : CandidateSet)
    (h : hasCol cs.cols "fecha" = true) :
    upsert_historico_selectivo em cs =
      ((candidateBars cs).filter (emitsB em),
       ((candidateBars cs).filter (skipsB em)).length,
       if cs.rows.filterMap RawRow.fecha = [] then Option.none
       else some ((cs.rows.filterMap RawRow.fecha).dedup.foldl max 0)) := by
  unfold upsert_historico_selectivo
  rw [h]
  simp only [Bool.not_true, Bool.false_eq_true, if_false, ite_false]
  split
  · rename_i hrows
    have hnil : cs.rows = [] := by simpa [List.isEmpty_iff] using hrows
    simp [candidateBars, hnil]
  · split
    · rename_i hdf
      have hdfnil : cs.rows.filter (fun r => r.fecha.isSome) = [] := by
        simpa [List.isEmpty_iff] using hdf
      have hfm : cs.rows.filterMap RawRow.fecha = [] := by
        rw [← filterMap_fecha_filter, hdfnil]; rfl
      have hcb : candidateBars cs = [] := filterMap_toBar_of_fecha_nil cs.rows hfm
      simp [hcb, hfm]
    · split
      · rename_i hdf hfe
        exfalso
        have hdfne : cs.rows.filter (fun r => r.fecha.isSome) ≠ [] := by
          simpa [List.isEmpty_iff] using hdf
        obtain ⟨r, rest, hr⟩ := List.exists_cons_of_ne_nil hdfne
        have hrmem : r ∈ cs.rows.filter (fun r => r.fecha.isSome) := by
          rw [hr]; exact List.mem_cons_self r rest
        have hrs : r.fecha.isSome = true := by
          have := List.of_mem_filter hrmem
          simpa using this
        obtain ⟨d, hd⟩ := Option.isSome_iff_exists.mp hrs
        have hdmem : d ∈ (cs.rows.filter (fun r => r.fecha.isSome)).filterMap RawRow.fecha := by
          exact List.mem_filterMap.mpr ⟨r, hrmem, hd⟩
        have : ((cs.rows.filter (fun r => r.fecha.isSome)).filterMap RawRow.fecha).dedup = [] := by
          simpa [List.isEmpty_iff] using hfe
        rw [List.dedup_eq_nil] at this
        rw [this] at hdmem
        simp at hdmem
      · rename_i hdf hfe
        have hfm : (cs.rows.filter (fun r => r.fecha.isSome)).filterMap RawRow.fecha
            = cs.rows.filterMap RawRow.fecha := filterMap_fecha_filter cs.rows
        have hne : ¬(cs.rows.filterMap RawRow.fecha = []) := by
          intro hnil
          apply hfe
          rw [hfm, hnil]
          rfl
        rw [foldl_reconcileStep, filterMap_toBar_filter]
        simp only [List.nil_append, Nat.zero_add]
        rw [if_neg hne]
        rw [hfm]
        rfl

/-- C4: for a candidate row with a valid date, a plausible close, and an
existing stored row for its date, the reconciliation emits it (as a
full-replace update of all five fields) exactly when at least one of the five
fields differs from the stored row under the `diff` predicate, and the
skipped count is exactly the number of such rows in which no field differs. -/
theorem upsert_update_iff_diff (em : List (ℕ × ExRow)) (cs : CandidateSet)
    (h : hasCol cs.cols "fecha" = true) :
    (∀ b ∈ candidateBars cs, lowClose b = false →
      ∀ e, lookupDate em b.fecha = some e →
        (b ∈ (upsert_historico_selectivo em cs).1 ↔ barDiffers b e = true)) ∧
      (upsert_historico_selectivo em cs).2.1
        = ((candidateBars cs).filter (skipsB em)).length := by
  rw [upsert_spec em cs h]
  constructor
  · intro b hb hl e he
    constructor
    · intro hmem
      have hemit : emitsB em b = true := (List.mem_filter.mp hmem).2
      unfold emitsB at hemit
      rw [hl, he] at hemit
      simpa using hemit
    · intro hd
      refine List.mem_filter.mpr ⟨hb, ?_⟩
      unfold emitsB
      rw [hl, he]
      simpa using hd
  · rfl

def emW : List (ℕ × ExRow) :=
  [(1, ⟨some (PyNum.float 10), Option.none, Option.none,
        some (PyNum.float 10), some (PyNum.int 5)⟩)]

def rowW : RawRow :=
  ⟨some 1, PyVal.str "12", PyVal.none, PyVal.none, PyVal.str "10", PyVal.str "5"⟩

def csW : CandidateSet := ⟨["fecha", "apertura", "cierre", "volumen"], [rowW]⟩

theorem upsert_update_iff_diff_witness :
    parseBar 1 rowW ∈ (upsert_historico_selectivo emW csW).1 :=
  ((upsert_update_iff_diff emW csW (by decide)).1 (parseBar 1 rowW)
    (by with_unfolding_all decide) (by with_unfolding_all rfl)
    ⟨some (PyNum.float 10), Option.none, Option.none,
      some (PyNum.float 10), some (PyNum.int 5)⟩
    (by with_unfolding_all rfl)).mpr (by with_unfolding_all rfl)

lemma candidateBars_dropLow (cs : CandidateSet) :
    candidateBars (dropLowRows cs)
      = (candidateBars cs).filter (fun b => !lowClose b) := by
  show (cs.rows.filter _).filterMap toBar
      = (cs.rows.filterMap toBar).filter (fun b => !lowClose b)
  induction cs.rows with
  | nil => rfl
  | cons r rest ih =>
    cases hf : r.fecha with
    | none =>
      have htb : toBar r = Option.none := by simp [toBar, hf]
      simp only [List.filter_cons, List.filterMap_cons, hf, htb, ih, if_true, ite_true]
    | some d =>
      have htb : toBar r = some (parseBar d r) := by simp [toBar, hf]
      by_cases hl : lowClose (parseBar d r) = true
      · simp only [List.filter_cons, List.filterMap_cons, hf, htb, hl, ih,
          Bool.not_true, Bool.false_eq_true, if_false, ite_false, if_true, ite_true]
      · have hl2 : lowClose (parseBar d r) = false := by
          revert hl; cases lowClose (parseBar d r) <;> simp
        simp only [List.filter_cons, List.filterMap_cons, hf, htb, hl2, ih,
          Bool.not_false, Bool.false_eq_true, if_false, ite_false, if_true, ite_true]

lemma filter_emits_absorb (em : List (ℕ × ExRow)) (l : List Bar) :
    (l.filter (fun b => !lowClose b)).filter (emitsB em)
      = l.filter (emitsB em) := by
  induction l with
  | nil => rfl
  | cons b rest ih =>
    by_cases hl : lowClose b = true
    · have hem : emitsB em b = false := by simp [emitsB, hl]
      rw [List.filter_cons, List.filter_cons]
      simp only [hl, hem, Bool.not_true, Bool.false_eq_true, if_false, ite_false]
      exact ih
    · have hl2 : lowClose b = false := by
        revert hl; cases lowClose b <;> simp
      rw [List.filter_cons]
      simp only [hl2, Bool.not_false, if_true, ite_true]
      rw [List.filter_cons, List.filter_cons, ih]

lemma filter_skips_absorb (em : List (ℕ × ExRow)) (l : List Bar) :
    (l.filter (fun b => !lowClose b)).filter (skipsB em)
      = l.filter (skipsB em) := by
  induction l with
  | nil => rfl
  | cons b rest ih =>
    by_cases hl : lowClose b = true
    · have hsk : skipsB em b = false := by simp [skipsB, hl]
      rw [List.filter_cons, List.filter_cons]
      simp only [hl, hsk, Bool.not_true, Bool.false_eq_true, if_false, ite_false]
      exact ih
    · have hl2 : lowClose b = false := by
        revert hl; cases lowClose b <;> simp
      rw [List.filter_cons]
      simp only [hl2, Bool.not_false, if_true, ite_true]
      rw [List.filter_cons, List.filter_cons, ih]

/-- C9: a candidate row whose parsed close is present and below `0.01` is
discarded before reconciliation: every record of the write-set has a plausible
close, and removing those rows from the CandidateSet changes neither the
write-set nor the skipped count. -/
theorem upsert_low_close_filtered (em : List (ℕ × ExRow)) (cs : CandidateSet) :
    ((upsert_historico_selectivo em cs).1.all (fun b => !lowClose b)) = true ∧
      (upsert_historico_selectivo em (dropLowRows cs)).1
        = (upsert_historico_selectivo em cs).1 ∧
      (upsert_historico_selectivo em (dropLowRows cs)).2.1
        = (upsert_historico_selectivo em cs).2.1 := by
  by_cases h : hasCol cs.cols "fecha" = true
  · have h2 : hasCol (dropLowRows cs).cols "fecha" = true := h
    rw [upsert_spec em cs h, upsert_spec em (dropLowRows cs) h2]
    refine ⟨?_, ?_, ?_⟩
    · rw [List.all_eq_true]
      intro b hb
      have hemit : emitsB em b = true := (List.mem_filter.mp hb).2
      unfold emitsB at hemit
      simp only [Bool.and_eq_true] at hemit
      exact hemit.1
    · rw [candidateBars_dropLow, filter_emits_absorb]
    · rw [candidateBars_dropLow, filter_skips_absorb]
  · have hf : hasCol cs.cols "fecha" = false := by
      revert h; cases hasCol cs.cols "fecha" <;> simp
    have hf2 : hasCol (dropLowRows cs).cols "fecha" = false := hf
    rw [upsert_no_datecol em cs hf, upsert_no_datecol em (dropLowRows cs) hf2]
    exact ⟨rfl, rfl, rfl⟩

/-- C8 counterexample: a CandidateSet whose only row has a valid date but an
implausible close (`0.001 < 0.01`) leaves the filtered candidate set empty,
yet reconciliation returns `([], 0, some 5)` — the most-recent-date component
is computed before the close filter, not `None` as the claim requires. -/
theorem upsert_max_date_counterexample :
    (candidateBars
        ⟨["fecha", "cierre"],
         [⟨some 5, PyVal.none, PyVal.none, PyVal.none, PyVal.str "0.001",
           PyVal.none⟩]⟩).filter (fun b => !lowClose b) = [] ∧
      upsert_historico_selectivo []
        ⟨["fecha", "cierre"],
         [⟨some 5, PyVal.none, PyVal.none, PyVal.none, PyVal.str "0.001",
           PyVal.none⟩]⟩ = ([], 0, some 5) :=
  ⟨by with_unfolding_all rfl, by with_unfolding_all rfl⟩

/-- C8 as amended: reconciliation returns `([], 0, None)` exactly when the
CandidateSet has no identifiable date column or no row with a parseable date
(the `close < 0.01` filter plays no part in this check); otherwise the third
component is the maximum valid date over all candidate rows, independent of
the ExistingSet and of whether rows were written or skipped, and whenever the
third component is `None` the write-set is empty and the skipped count zero. -/
theorem upsert_result_date (em : List (ℕ × ExRow)) (cs : CandidateSet) :
    ((upsert_historico_selectivo em cs).2.2 =
        if hasCol cs.cols "fecha" = true then
          (if cs.rows.filterMap RawRow.fecha = [] then Option.none
           else some ((cs.rows.filterMap RawRow.fecha).dedup.foldl max 0))
        else Option.none) ∧
      ((upsert_historico_selectivo em cs).1 = []
          ∧ (upsert_historico_selectivo em cs).2.1 = 0
        ∨ (upsert_historico_selectivo em cs).2.2 ≠ Option.none) := by
  by_cases h : hasCol cs.cols "fecha" = true
  · rw [upsert_spec em cs h, if_pos h]
    refine ⟨rfl, ?_⟩
    by_cases hd : cs.rows.filterMap RawRow.fecha = []
    · left
      have hcb : candidateBars cs = [] := filterMap_toBar_of_fecha_nil cs.rows hd
      rw [hcb]
      exact ⟨rfl, rfl⟩
    · right
      simp [hd]
  · have hf : hasCol cs.cols "fecha" = false := by
      revert h; cases hasCol cs.cols "fecha" <;> simp
    rw [upsert_no_datecol em cs hf, if_neg h]
    exact ⟨rfl, Or.inl ⟨rfl, rfl⟩⟩

lemma iscloseQ_self (a : ℚ) : iscloseQ a a = true := by
  unfold iscloseQ
  refine decide_eq_true ?_
  rw [sub_self, abs_zero]
  exact le_max_of_le_right (by norm_num)

lemma diff_self (o : Option PyNum) : diff o o = false := by
  cases o with
  | none => rfl
  | some x =>
    show (if (x.isFloat || x.isFloat) = true then !(iscloseQ x.toQ x.toQ)
          else decide (x ≠ x)) = false
    by_cases hx : (x.isFloat || x.isFloat) = true
    · rw [if_pos hx, iscloseQ_self]
      rfl
    · rw [if_neg hx]
      simp

lemma barDiffers_exOf (b : Bar) : barDiffers b (exOf b) = false := by
  unfold barDiffers exOf
  simp [diff_self]

lemma lookupDate_filter_ne (m : List (ℕ × ExRow)) (k d : ℕ) (hd : d ≠ k) :
    lookupDate (m.filter (fun p => !(p.1 == k))) d = lookupDate m d := by
  induction m with
  | nil => rfl
  | cons p t ih =>
    rw [List.filter_cons]
    by_cases hp : p.1 = k
    · have hcond : (!(p.1 == k)) = false := by simp [hp]
      rw [hcond]
      simp only [Bool.false_eq_true, if_false, ite_false]
      rw [ih]
      show lookupDate t d = if p.1 = d then some p.2 else lookupDate t d
      rw [if_neg (by rw [hp]; exact fun hh => hd hh.symm)]
    · have hcond : (!(p.1 == k)) = true := by simp [hp]
      rw [hcond]
      simp only [if_true, ite_true]
      show (if p.1 = d then some p.2 else lookupDate (t.filter _) d)
          = (if p.1 = d then some p.2 else lookupDate t d)
      by_cases hpd : p.1 = d
      · rw [if_pos hpd, if_pos hpd]
      · rw [if_neg hpd, if_neg hpd]
        exact ih

lemma lookupDate_upsertOne (m : List (ℕ × ExRow)) (b : Bar) (d : ℕ) :
    lookupDate (upsertOne m b) d =
      if d = b.fecha then some (exOf b) else lookupDate m d := by
  unfold upsertOne
  show (if b.fecha = d then some (exOf b) else lookupDate (m.filter _) d) = _
  by_cases hd : d = b.fecha
  · rw [if_pos hd.symm, if_pos hd]
  · rw [if_neg (fun hh => hd hh.symm), if_neg hd]
    exact lookupDate_filter_ne m b.fecha d hd

lemma lookupDate_applyWrites_notmem (ws : List Bar) (m : List (ℕ × ExRow))
    (d : ℕ) (h : ∀ b ∈ ws, b.fecha ≠ d) :
    lookupDate (applyWrites m ws) d = lookupDate m d := by
  induction ws generalizing m with
  | nil => rfl
  | cons b t ih =>
    show lookupDate (applyWrites (upsertOne m b) t) d = _
    rw [ih (upsertOne m b) (fun x hx => h x (List.mem_cons_of_mem b hx)),
      lookupDate_upsertOne]
    rw [if_neg (fun hh => h b (List.mem_cons_self b t) hh.symm)]

lemma lookupDate_applyWrites_mem (ws : List Bar) (m : List (ℕ × ExRow))
    (b : Bar) (hnd : ws.Pairwise (fun a c => a.fecha ≠ c.fecha)) (hb : b ∈ ws) :
    lookupDate (applyWrites m ws) b.fecha = some (exOf b) := by
  induction ws generalizing m with
  | nil => cases hb
  | cons a t ih =>
    rw [List.pairwise_cons] at hnd
    rcases List.mem_cons.mp hb with rfl | hbt
    · show lookupDate (applyWrites (upsertOne m b) t) b.fecha = _
      rw [lookupDate_applyWrites_notmem t (upsertOne m b) b.fecha
        (fun x hx hh => hnd.1 x hx hh.symm), lookupDate_upsertOne]
      rw [if_pos rfl]
    · exact ih (upsertOne m a) hnd.2 hbt

lemma bar_fecha_inj (l : List Bar)
    (h : l.Pairwise (fun a c => a.fecha ≠ c.fecha))
    (a b : Bar) (ha : a ∈ l) (hb : b ∈ l) (hf : a.fecha = b.fecha) : a = b := by
  induction l with
  | nil => cases ha
  | cons x t ih =>
    rw [List.pairwise_cons] at h
    rcases List.mem_cons.mp ha with rfl | hat
    · rcases List.mem_cons.mp hb with rfl | hbt
      · rfl
      · exact absurd hf (h.1 b hbt)
    · rcases List.mem_cons.mp hb with rfl | hbt
      · exact absurd hf.symm (h.1 a hat)
      · exact ih h.2 hat hbt

lemma map_fecha_candidateBars (cs : CandidateSet) :
    (candidateBars cs).map Bar.fecha = cs.rows.filterMap RawRow.fecha := by
  show (cs.rows.filterMap toBar).map Bar.fecha = _
  induction cs.rows with
  | nil => rfl
  | cons r t ih =>
    rw [List.filterMap_cons, List.filterMap_cons]
    cases hf : r.fecha with
    | none =>
      have htb : toBar r = Option.none := by simp [toBar, hf]
      rw [htb]
      exact ih
    | some d =>
      have htb : toBar r = some (parseBar d r) := by simp [toBar, hf]
      rw [htb]
      show (parseBar d r).fecha :: (List.filterMap toBar t).map Bar.fecha
          = d :: List.filterMap RawRow.fecha t
      rw [ih]
      rfl

/-- C5 counterexample: a CandidateSet with two identical rows for the same
date breaks the claimed idempotence equation — after reflecting the first
run's writes, the second run's write-set is empty but its skipped count is 2,
while the number of distinct valid dates is 1. -/
theorem upsert_idempotent_counterexample :
    (upsert_historico_selectivo
        (applyWrites [] (upsert_historico_selectivo []
          ⟨["fecha", "apertura", "cierre", "volumen"],
           [⟨some 1, PyVal.str "10", PyVal.none, PyVal.none, PyVal.str "10",
             PyVal.str "7"⟩,
            ⟨some 1, PyVal.str "10", PyVal.none, PyVal.none, PyVal.str "10",
             PyVal.str "7"⟩]⟩).1)
        ⟨["fecha", "apertura", "cierre", "volumen"],
         [⟨some 1, PyVal.str "10", PyVal.none, PyVal.none, PyVal.str "10",
           PyVal.str "7"⟩,
          ⟨some 1, PyVal.str "10", PyVal.none, PyVal.none, PyVal.str "10",
           PyVal.str "7"⟩]⟩).2.1 = 2 ∧
      (validDates
        ⟨["fecha", "apertura", "cierre", "volumen"],
         [⟨some 1, PyVal.str "10", PyVal.none, PyVal.none, PyVal.str "10",
           PyVal.str "7"⟩,
          ⟨some 1, PyVal.str "10", PyVal.none, PyVal.none, PyVal.str "10",
           PyVal.str "7"⟩]⟩).length = 1 :=
  ⟨by with_unfolding_all rfl, by with_unfolding_all rfl⟩

/-- C5 as amended: reconciliation is idempotent for CandidateSets whose
valid-date rows have pairwise distinct dates and pass the `close < 0.01`
filter — re-reconciling against storage that reflects the first run's writes
yields an empty write-set and a skipped count equal to the number of distinct
valid dates. -/
theorem upsert_idempotent_distinct_dates (em : List (ℕ × ExRow))
    (cs : CandidateSet) (h : hasCol cs.cols "fecha" = true)
    (hnd : (candidateBars cs).Pairwise (fun a c => a.fecha ≠ c.fecha))
    (hlow : ∀ b ∈ candidateBars cs, lowClose b = false) :
    (upsert_historico_selectivo
        (applyWrites em (upsert_historico_selectivo em cs).1) cs).1 = [] ∧
      (upsert_historico_selectivo
        (applyWrites em (upsert_historico_selectivo em cs).1) cs).2.1
        = (validDates cs).length := by
  have hws : (upsert_historico_selectivo em cs).1
      = (candidateBars cs).filter (emitsB em) := by
    rw [upsert_spec em cs h]
  have hlk : ∀ b ∈ candidateBars cs,
      skipsB (applyWrites em (upsert_historico_selectivo em cs).1) b = true ∧
        emitsB (applyWrites em (upsert_historico_selectivo em cs).1) b = false := by
    intro b hb
    have hlowb := hlow b hb
    by_cases he : emitsB em b = true
    · have hmem : b ∈ (candidateBars cs).filter (emitsB em) :=
        List.mem_filter.mpr ⟨hb, he⟩
      have hpw : ((candidateBars cs).filter (emitsB em)).Pairwise
          (fun a c => a.fecha ≠ c.fecha) :=
        hnd.sublist (List.filter_sublist _)
      have hl2 : lookupDate
          (applyWrites em (upsert_historico_selectivo em cs).1) b.fecha
          = some (exOf b) := by
        rw [hws]
        exact lookupDate_applyWrites_mem _ em b hpw hmem
      constructor
      · unfold skipsB
        rw [hlowb, hl2]
        simp [barDiffers_exOf]
      · unfold emitsB
        rw [hlowb, hl2]
        simp [barDiffers_exOf]
    · have he0 : emitsB em b = false := by
        revert he; cases emitsB em b <;> simp
      have he2 := he0
      unfold emitsB at he2
      rw [hlowb] at he2
      simp only [Bool.not_false, Bool.true_and] at he2
      cases hlkup : lookupDate em b.fecha with
      | none => rw [hlkup] at he2; simp at he2
      | some e =>
        rw [hlkup] at he2
        change barDiffers b e = false at he2
        have hnotin : ∀ x ∈ (candidateBars cs).filter (emitsB em),
            x.fecha ≠ b.fecha := by
          intro x hx hxf
          have hxcb := (List.mem_filter.mp hx).1
          have hxe := (List.mem_filter.mp hx).2
          have hxb : x = b := bar_fecha_inj _ hnd x b hxcb hb hxf
          rw [hxb, he0] at hxe
          exact Bool.false_ne_true hxe
        have hl2 : lookupDate
            (applyWrites em (upsert_historico_selectivo em cs).1) b.fecha
            = lookupDate em b.fecha := by
          rw [hws]
          exact lookupDate_applyWrites_notmem _ em b.fecha hnotin
        constructor
        · unfold skipsB
          rw [hlowb, hl2, hlkup]
          simp [he2]
        · unfold emitsB
          rw [hlowb, hl2, hlkup]
          simp [he2]
  rw [upsert_spec (applyWrites em (upsert_historico_selectivo em cs).1) cs h]
  constructor
  · rw [List.filter_eq_nil_iff]
    intro b hb
    rw [(hlk b hb).2]
    simp
  · have hall : (candidateBars cs).filter
        (skipsB (applyWrites em (upsert_historico_selectivo em cs).1))
        = candidateBars cs :=
      List.filter_eq_self.mpr (fun b hb => (hlk b hb).1)
    rw [hall]
    have hnodup : (cs.rows.filterMap RawRow.fecha).Nodup := by
      rw [← map_fecha_candidateBars]
      exact hnd.map Bar.fecha (fun _ _ hab => hab)
    unfold validDates
    rw [List.dedup_eq_self.mpr hnodup, ← map_fecha_candidateBars,
      List.length_map]

theorem upsert_idempotent_distinct_dates_witness :
    (upsert_historico_selectivo
        (applyWrites [] (upsert_historico_selectivo []
          ⟨["fecha", "apertura", "cierre", "volumen"],
           [⟨some 1, PyVal.str "10", PyVal.none, PyVal.none, PyVal.str "10",
             PyVal.str "7"⟩,
            ⟨some 2, PyVal.str "11", PyVal.none, PyVal.none, PyVal.str "11",
             PyVal.str "8"⟩]⟩).1)
        ⟨["fecha", "apertura", "cierre", "volumen"],
         [⟨some 1, PyVal.str "10", PyVal.none, PyVal.none, PyVal.str "10",
           PyVal.str "7"⟩,
          ⟨some 2, PyVal.str "11", PyVal.none, PyVal.none, PyVal.str "11",
           PyVal.str "8"⟩]⟩).1 = [] ∧
      (upsert_historico_selectivo
        (applyWrites [] (upsert_historico_selectivo []
          ⟨["fecha", "apertura", "cierre", "volumen"],
           [⟨some 1, PyVal.str "10", PyVal.none, PyVal.none, PyVal.str "10",
             PyVal.str "7"⟩,
            ⟨some 2, PyVal.str "11", PyVal.none, PyVal.none, PyVal.str "11",
             PyVal.str "8"⟩]⟩).1)
        ⟨["fecha", "apertura", "cierre", "volumen"],
         [⟨some 1, PyVal.str "10", PyVal.none, PyVal.none, PyVal.str "10",
           PyVal.str "7"⟩,
          ⟨some 2, PyVal.str "11", PyVal.none, PyVal.none, PyVal.str "11",
           PyVal.str "8"⟩]⟩).2.1 =
        (validDates
          ⟨["fecha", "apertura", "cierre", "volumen"],
           [⟨some 1, PyVal.str "10", PyVal.none, PyVal.none, PyVal.str "10",
             PyVal.str "7"⟩,
            ⟨some 2, PyVal.str "11", PyVal.none, PyVal.none, PyVal.str "11",
             PyVal.str "8"⟩]⟩).length :=
  upsert_idempotent_distinct_dates []
    ⟨["fecha", "apertura", "cierre", "volumen"],
     [⟨some 1, PyVal.str "10", PyVal.none, PyVal.none, PyVal.str "10",
       PyVal.str "7"⟩,
      ⟨some 2, PyVal.str "11", PyVal.none, PyVal.none, PyVal.str "11",
       PyVal.str "8"⟩]⟩
    (by decide)
    (by with_unfolding_all decide)
    (by with_unfolding_all decide)

/-! Helper lemmas for the decimal rendering round-trip. -/

lemma digitChar_isDigit (n : ℕ) (h : n < 10) : (digitChar n).isDigit = true := by
  interval_cases n <;> decide

lemma digitVal_digitChar (n : ℕ) (h : n < 10) : digitVal (digitChar n) = n := by
  interval_cases n <;> decide

lemma isWhitespace_eq_false_of_isDigit (c : Char) (h : c.isDigit = true) :
    c.isWhitespace = false := by
  cases hw : c.isWhitespace
  · rfl
  · exfalso
    have hc := hw
    simp only [Char.isWhitespace, Bool.or_eq_true, beq_iff_eq, decide_eq_true_eq] at hc
    rcases hc with ((rfl | rfl) | rfl) | rfl <;> exact absurd h (by decide)

lemma digitsOf_ne_nil (n : ℕ) : digitsOf n ≠ [] := by
  rw [digitsOf]
  by_cases h : n < 10
  · rw [if_pos h]; simp
  · rw [if_neg h]; simp

lemma digitsOf_all_digit (n : ℕ) : ∀ c ∈ digitsOf n, c.isDigit = true := by
  induction n using Nat.strong_induction_on with
  | _ n ih =>
    intro c hc
    rw [digitsOf] at hc
    by_cases h : n < 10
    · rw [if_pos h] at hc
      simp at hc
      subst hc
      exact digitChar_isDigit n h
    · rw [if_neg h] at hc
      rcases List.mem_append.mp hc with hc1 | hc1
      · exact ih (n / 10) (Nat.div_lt_self (by omega) (by omega)) c hc1
      · simp at hc1
        subst hc1
        exact digitChar_isDigit _ (Nat.mod_lt n (by omega))

lemma natOfDigits_foldl (l : List Char) (a : ℕ) :
    l.foldl (fun a c => 10 * a + digitVal c) a
      = a * 10 ^ l.length + natOfDigits l := by
  induction l generalizing a with
  | nil => simp [natOfDigits]
  | cons c t ih =>
    rw [List.foldl_cons, ih (10 * a + digitVal c)]
    have hr : natOfDigits (c :: t) = digitVal c * 10 ^ t.length + natOfDigits t := by
      show t.foldl (fun a c => 10 * a + digitVal c) (10 * 0 + digitVal c)
          = digitVal c * 10 ^ t.length + natOfDigits t
      rw [ih (10 * 0 + digitVal c)]
      ring_nf
    rw [hr]
    simp only [List.length_cons, pow_succ]
    ring

lemma natOfDigits_append (l1 l2 : List Char) :
    natOfDigits (l1 ++ l2)
      = natOfDigits l1 * 10 ^ l2.length + natOfDigits l2 := by
  unfold natOfDigits
  rw [List.foldl_append]
  exact natOfDigits_foldl l2 _

lemma natOfDigits_digitsOf (n : ℕ) : natOfDigits (digitsOf n) = n := by
  induction n using Nat.strong_induction_on with
  | _ n ih =>
    rw [digitsOf]
    by_cases h : n < 10
    · rw [if_pos h]
      show natOfDigits [digitChar n] = n
      unfold natOfDigits
      simp [digitVal_digitChar n h]
    · rw [if_neg h]
      rw [natOfDigits_append, ih (n / 10) (Nat.div_lt_self (by omega) (by omega))]
      have hm : natOfDigits [digitChar (n % 10)] = n % 10 := by
        unfold natOfDigits
        simp [digitVal_digitChar _ (Nat.mod_lt n (by omega))]
      rw [hm]
      simp
      omega

lemma natOfDigits_replicate_zero (m : ℕ) :
    natOfDigits (List.replicate m '0') = 0 := by
  induction m with
  | zero => rfl
  | succ k ih =>
    rw [List.replicate_succ]
    unfold natOfDigits at ih ⊢
    rw [List.foldl_cons]
    simpa [digitVal] using ih

lemma digitsOf_length_le (k : ℕ) : ∀ n : ℕ, 1 ≤ k → n < 10 ^ k →
    (digitsOf n).length ≤ k := by
  induction k with
  | zero => omega
  | succ k ih =>
    intro n hk h
    rw [digitsOf]
    by_cases h10 : n < 10
    · rw [if_pos h10]
      simp
    · rw [if_neg h10]
      rw [List.length_append]
      have hk1 : 1 ≤ k := by
        by_contra hc
        push_neg at hc
        have hk0 : k = 0 := by omega
        rw [hk0] at h
        norm_num at h
        omega
      have hdiv : n / 10 < 10 ^ k := by
        rw [pow_succ] at h
        omega
      have := ih (n / 10) hk1 hdiv
      simp
      omega

lemma dropWhile_eq_self_of_false (p : Char → Bool) (l : List Char)
    (h : ∀ c ∈ l, p c = false) : l.dropWhile p = l := by
  cases l with
  | nil => rfl
  | cons a t =>
    rw [List.dropWhile_cons, h a (List.mem_cons_self a t)]
    simp

lemma trimChars_eq_self (l : List Char) (h : ∀ c ∈ l, c.isWhitespace = false) :
    trimChars l = l := by
  unfold trimChars
  rw [dropWhile_eq_self_of_false _ l h,
    dropWhile_eq_self_of_false _ l.reverse
      (fun c hc => h c (List.mem_reverse.mp hc)),
    List.reverse_reverse]

lemma containsChar_iff (l : List Char) (c : Char) :
    containsChar l c = true ↔ c ∈ l := by
  unfold containsChar
  rw [List.any_eq_true]
  constructor
  · rintro ⟨a, ha, hac⟩
    rw [beq_iff_eq] at hac
    exact hac ▸ ha
  · intro h
    exact ⟨c, h, beq_self_eq_true c⟩

lemma containsChar_eq_false (l : List Char) (c : Char) (h : c ∉ l) :
    containsChar l c = false := by
  cases hc : containsChar l c
  · rfl
  · exact absurd ((containsChar_iff l c).mp hc) h

lemma rfindChar_eq_neg_one (l : List Char) (c : Char) (h : c ∉ l) :
    rfindChar l c = -1 := by
  induction l with
  | nil => rfl
  | cons a t ih =>
    show (if 0 ≤ rfindChar t c then rfindChar t c + 1
          else if a = c then 0 else -1) = -1
    rw [ih (fun hm => h (List.mem_cons_of_mem a hm))]
    have ha : ¬(a = c) := fun hh => h (hh ▸ List.mem_cons_self a t)
    simp [ha]

lemma rfindChar_append_cons (D P : List Char) (c : Char) (hP : c ∉ P) :
    rfindChar (D ++ c :: P) c = (D.length : Int) := by
  induction D with
  | nil =>
    show (if 0 ≤ rfindChar P c then rfindChar P c + 1
          else if c = c then 0 else -1) = ((0 : ℕ) : Int)
    rw [rfindChar_eq_neg_one P c hP]
    simp
  | cons a D ih =>
    show (if 0 ≤ rfindChar (D ++ c :: P) c then rfindChar (D ++ c :: P) c + 1
          else if a = c then 0 else -1) = ((a :: D).length : Int)
    rw [ih]
    have hnn : (0 : Int) ≤ D.length := Int.natCast_nonneg _
    rw [if_pos hnn]
    simp

lemma takeWhile_append_dot (D P : List Char) (hD : '.' ∉ D) :
    (D ++ '.' :: P).takeWhile (fun c => !(c == '.')) = D := by
  induction D with
  | nil =>
    rw [List.nil_append, List.takeWhile_cons]
    simp
  | cons a D ih =>
    have ha : ¬(a = '.') := fun hh => hD (hh ▸ List.mem_cons_self a D)
    rw [List.cons_append, List.takeWhile_cons]
    have hba : (!(a == '.')) = true := by simp [ha]
    rw [hba]
    simp only [if_true, ite_true]
    rw [ih (fun hm => hD (List.mem_cons_of_mem a hm))]

lemma dropWhile_append_dot (D P : List Char) (hD : '.' ∉ D) :
    (D ++ '.' :: P).dropWhile (fun c => !(c == '.')) = '.' :: P := by
  induction D with
  | nil =>
    rw [List.nil_append, List.dropWhile_cons]
    simp
  | cons a D ih =>
    have ha : ¬(a = '.') := fun hh => hD (hh ▸ List.mem_cons_self a D)
    rw [List.cons_append, List.dropWhile_cons]
    have hba : (!(a == '.')) = true := by simp [ha]
    rw [hba]
    simp only [if_true, ite_true]
    exact ih (fun hm => hD (List.mem_cons_of_mem a hm))

lemma count_append_dot (D P : List Char) (hD : '.' ∉ D) (hP : '.' ∉ P) :
    (D ++ '.' :: P).count '.' = 1 := by
  rw [List.count_append, List.count_cons]
  rw [List.count_eq_zero.mpr hD, List.count_eq_zero.mpr hP]
  simp

lemma parseUnsignedFloat_shape (D P : List Char)
    (hD : ∀ c ∈ D, c.isDigit = true) (hP : ∀ c ∈ P, c.isDigit = true)
    (hDne : D ≠ []) :
    parseUnsignedFloat (D ++ '.' :: P)
      = some ((natOfDigits D : ℚ) + (natOfDigits P : ℚ) / 10 ^ P.length) := by
  have hDdot : '.' ∉ D := fun h => absurd (hD '.' h) (by decide)
  have hPdot : '.' ∉ P := fun h => absurd (hP '.' h) (by decide)
  unfold parseUnsignedFloat
  have hall : (D ++ '.' :: P).all (fun c => c.isDigit || c == '.') = true := by
    rw [List.all_eq_true]
    intro c hc
    rcases List.mem_append.mp hc with hc1 | hc1
    · simp [hD c hc1]
    · rcases List.mem_cons.mp hc1 with rfl | hc2
      · simp
      · simp [hP c hc2]
  have hcount : (D ++ '.' :: P).count '.' ≤ 1 := by
    rw [count_append_dot D P hDdot hPdot]
  have hany : (D ++ '.' :: P).any Char.isDigit = true := by
    obtain ⟨d, D2, rfl⟩ := List.exists_cons_of_ne_nil hDne
    rw [List.cons_append, List.any_cons]
    rw [hD d (List.mem_cons_self d D2)]
    simp
  rw [if_pos (by rw [hall, hany, decide_eq_true hcount]; rfl)]
  rw [takeWhile_append_dot D P hDdot, dropWhile_append_dot D P hDdot]
  rw [List.drop_one, List.tail_cons]

lemma parseFloatQ_shape (D P : List Char)
    (hD : ∀ c ∈ D, c.isDigit = true) (hP : ∀ c ∈ P, c.isDigit = true)
    (hDne : D ≠ []) :
    parseFloatQ (D ++ '.' :: P)
      = some ((natOfDigits D : ℚ) + (natOfDigits P : ℚ) / 10 ^ P.length) := by
  obtain ⟨d, D2, rfl⟩ := List.exists_cons_of_ne_nil hDne
  have hd : d.isDigit = true := hD d (List.mem_cons_self d D2)
  have h1 : ¬(d = '-') := fun hh => absurd (hh ▸ hd) (by decide)
  have h2 : ¬(d = '+') := fun hh => absurd (hh ▸ hd) (by decide)
  rw [List.cons_append]
  show (if d = '-' then (parseUnsignedFloat (D2 ++ '.' :: P)).map (fun q => -q)
        else if d = '+' then parseUnsignedFloat (D2 ++ '.' :: P)
        else parseUnsignedFloat (d :: (D2 ++ '.' :: P))) = _
  rw [if_neg h1, if_neg h2, ← List.cons_append]
  exact parseUnsignedFloat_shape (d :: D2) P hD hP (by simp)

lemma decExp_den (q : ℚ) (h : (q * 1000).den = 1) :
    (q * 10 ^ decExp q).den = 1 ∧ decExp q ≤ 3 := by
  by_cases h0 : q.den = 1
  · rw [decExp, if_pos h0]
    refine ⟨?_, by omega⟩
    rw [pow_zero, mul_one]
    exact h0
  · by_cases h1 : (q * 10).den = 1
    · rw [decExp, if_neg h0, if_pos h1]
      refine ⟨?_, by omega⟩
      rw [pow_one]
      exact h1
    · by_cases h2 : (q * 100).den = 1
      · rw [decExp, if_neg h0, if_neg h1, if_pos h2]
        refine ⟨?_, by omega⟩
        have he : (10 : ℚ) ^ 2 = 100 := by norm_num
        rw [he]
        exact h2
      · rw [decExp, if_neg h0, if_neg h1, if_neg h2, if_pos h]
        refine ⟨?_, by omega⟩
        have he : (10 : ℚ) ^ 3 = 1000 := by norm_num
        rw [he]
        exact h

lemma renderChars_shape (q : ℚ) (h0 : 0 ≤ q) (h3 : (q * 1000).den = 1) :
    ∃ D P, renderChars q = D ++ '.' :: P ∧ D ≠ [] ∧
      (∀ c ∈ D, c.isDigit = true) ∧ (∀ c ∈ P, c.isDigit = true) ∧
      1 ≤ P.length ∧ P.length ≤ 3 ∧
      (natOfDigits D : ℚ) + (natOfDigits P : ℚ) / 10 ^ P.length = q := by
  obtain ⟨hden, hle⟩ := decExp_den q h3
  have hmul : 0 ≤ q * 10 ^ decExp q := by positivity
  have hcast : (((q * 10 ^ decExp q).num.toNat : ℤ) : ℚ) = q * 10 ^ decExp q := by
    rw [Int.toNat_of_nonneg (Rat.num_nonneg.mpr hmul)]
    have hv := Rat.num_div_den (q * 10 ^ decExp q)
    rw [hden] at hv
    simpa using hv
  by_cases hk : decExp q = 0
  · refine ⟨digitsOf (q * 10 ^ decExp q).num.toNat, ['0'], ?_, digitsOf_ne_nil _,
      digitsOf_all_digit _, ?_, by simp, by simp, ?_⟩
    · rw [renderChars, if_pos hk]
    · intro c hc
      simp at hc
      subst hc
      decide
    · have hP : natOfDigits ['0'] = 0 := by decide
      rw [natOfDigits_digitsOf, hP]
      simp only [Nat.cast_zero, List.length_singleton, zero_div, add_zero]
      rw [hk, pow_zero, mul_one] at hcast
      rw [hk, pow_zero, mul_one]
      exact_mod_cast hcast
  · set k := decExp q with hkdef
    set m := (q * 10 ^ k).num.toNat with hmdef
    have hfplt : m % 10 ^ k < 10 ^ k := Nat.mod_lt _ (by positivity)
    have hfplen : (digitsOf (m % 10 ^ k)).length ≤ k :=
      digitsOf_length_le k _ (by omega) hfplt
    refine ⟨digitsOf (m / 10 ^ k),
      List.replicate (k - (digitsOf (m % 10 ^ k)).length) '0'
        ++ digitsOf (m % 10 ^ k), ?_, digitsOf_ne_nil _,
      digitsOf_all_digit _, ?_, ?_, ?_, ?_⟩
    · rw [renderChars, if_neg hk]
    · intro c hc
      rcases List.mem_append.mp hc with hc1 | hc1
      · have := List.eq_of_mem_replicate hc1
        subst this
        decide
      · exact digitsOf_all_digit _ c hc1
    · rw [List.length_append, List.length_replicate]
      have := digitsOf_ne_nil (m % 10 ^ k)
      have hpos : 0 < (digitsOf (m % 10 ^ k)).length :=
        List.length_pos.mpr this
      omega
    · rw [List.length_append, List.length_replicate]
      omega
    · have hPlen : (List.replicate (k - (digitsOf (m % 10 ^ k)).length) '0'
          ++ digitsOf (m % 10 ^ k)).length = k := by
        rw [List.length_append, List.length_replicate]
        omega
      have hPval : natOfDigits
          (List.replicate (k - (digitsOf (m % 10 ^ k)).length) '0'
            ++ digitsOf (m % 10 ^ k)) = m % 10 ^ k := by
        rw [natOfDigits_append, natOfDigits_replicate_zero,
          natOfDigits_digitsOf]
        simp
      rw [hPlen, hPval, natOfDigits_digitsOf]
      have hdm : m / 10 ^ k * 10 ^ k + m % 10 ^ k = m := Nat.div_add_mod' m (10 ^ k)
      have h10 : (10 : ℚ) ^ k ≠ 0 := by positivity
      push_cast at hcast
      have h2 : (((m / 10 ^ k : ℕ) : ℚ) + ((m % 10 ^ k : ℕ) : ℚ) / 10 ^ k)
          * 10 ^ k = q * 10 ^ k := by
        rw [add_mul, div_mul_cancel₀ _ h10, ← hcast]
        exact_mod_cast hdm
      exact mul_right_cancel₀ h10 h2

lemma parse_render (q : ℚ) (h0 : 0 ≤ q) (h3 : (q * 1000).den = 1) :
    parse_number (PyVal.str (renderFloat q)) false
      = some (PyNum.float q) := by
  obtain ⟨D, P, hEq, hDne, hDdig, hPdig, hP1, hP3, hval⟩ :=
    renderChars_shape q h0 h3
  have hDdot : '.' ∉ D := fun h => absurd (hDdig '.' h) (by decide)
  have hPdot : '.' ∉ P := fun h => absurd (hPdig '.' h) (by decide)
  have hdata : (renderFloat q).data = renderChars q := rfl
  rw [parse_number_str_eq, hdata, hEq]
  have hnws : ∀ c ∈ D ++ '.' :: P, c.isWhitespace = false := by
    intro c hc
    rcases List.mem_append.mp hc with hc1 | hc1
    · exact isWhitespace_eq_false_of_isDigit c (hDdig c hc1)
    · rcases List.mem_cons.mp hc1 with rfl | hc2
      · decide
      · exact isWhitespace_eq_false_of_isDigit c (hPdig c hc2)
  rw [trimChars_eq_self _ hnws]
  have hne2 : ¬(D ++ '.' :: P = [] ∨ D ++ '.' :: P = ['-']) := by
    rintro (hh | hh)
    · obtain ⟨d, D2, rfl⟩ := List.exists_cons_of_ne_nil hDne
      simp at hh
    · have hdm : '.' ∈ D ++ '.' :: P := by
        rw [List.mem_append]
        exact Or.inr (List.mem_cons_self _ _)
      rw [hh] at hdm
      simp at hdm
  rw [if_neg hne2]
  have hcomma : containsChar (D ++ '.' :: P) ',' = false := by
    refine containsChar_eq_false _ _ (fun hm => ?_)
    rcases List.mem_append.mp hm with hc1 | hc1
    · exact absurd (hDdig ',' hc1) (by decide)
    · rcases List.mem_cons.mp hc1 with hh | hc2
      · exact absurd hh (by decide)
      · exact absurd (hPdig ',' hc2) (by decide)
  have hdot : containsChar (D ++ '.' :: P) '.' = true := by
    rw [containsChar_iff, List.mem_append]
    exact Or.inr (List.mem_cons_self _ _)
  have hcount : countChar (D ++ '.' :: P) '.' = 1 :=
    count_append_dot D P hDdot hPdot
  have hrf : rfindChar (D ++ '.' :: P) '.' = (D.length : Int) :=
    rfindChar_append_cons D P '.' hPdot
  have hDpos : 0 < D.length := List.length_pos.mpr hDne
  have hlen : ((D ++ '.' :: P).length : Int) = D.length + 1 + P.length := by
    rw [List.length_append, List.length_cons]
    push_cast
    ring
  have htrans : transformSeparators (D ++ '.' :: P) = D ++ '.' :: P := by
    unfold transformSeparators
    rw [hcomma, hdot, hcount, hrf, hlen]
    have hc1 : (false && !true) = false := by decide
    have hc2 : (true && !false) = true := by decide
    rw [hc1, hc2]
    simp only [Bool.false_eq_true, if_false, ite_false, if_true, ite_true]
    have hg1 : ¬(1 > 1) := by omega
    rw [if_neg hg1]
    have hg2 : (0 : Int) < D.length := by exact_mod_cast hDpos
    rw [if_pos hg2]
    have hg3 : ¬(3 < (D.length : Int) + 1 + P.length - D.length - 1) := by
      have : (P.length : Int) ≤ 3 := by exact_mod_cast hP3
      omega
    rw [if_neg hg3]
  rw [htrans, parseFloatQ_shape D P hDdig hPdig hDne, hval, pyCheck_some,
    if_neg (not_lt.mpr h0)]
  rfl

set_option maxRecDepth 8000 in
/-- C7 counterexample: `parse_number(".1234", false)` succeeds with `0.1234`,
whose canonical rendering is `"0.1234"`, but normalizing that rendering gives
`1234.0` (the dot is stripped as a thousands separator), not `0.1234`; a
negative passthrough result such as `-5.0` also fails to re-normalize, since
`parse_number("-5.0", false)` is `None`. -/
theorem parse_number_roundtrip_counterexample :
    parse_number (PyVal.str ".1234") false = some (PyNum.float (617 / 5000)) ∧
      renderFloat (617 / 5000) = "0.1234" ∧
      parse_number (PyVal.str "0.1234") false = some (PyNum.float 1234) ∧
      ((1234 : ℚ) ≠ 617 / 5000) ∧
      parse_number (PyVal.float (-5)) false = some (PyNum.float (-5)) ∧
      parse_number (PyVal.str "-5.0") false = Option.none :=
  ⟨by with_unfolding_all rfl, by with_unfolding_all rfl,
   by with_unfolding_all rfl, by norm_num, rfl, by with_unfolding_all rfl⟩

/-- C7 as amended: `parse_number` is deterministic (it is a function), and it
is idempotent on every nonnegative successful value whose canonical rendering
has at most three digits after the decimal point: re-normalizing the rendering
returns the same numeric value. -/
theorem parse_number_roundtrip_short_frac (x : PyVal) (v : PyNum)
    (_h1 : parse_number x false = some v) (h2 : 0 ≤ v.toQ)
    (h3 : (v.toQ * 1000).den = 1) :
    parse_number (PyVal.str (renderFloat v.toQ)) false
      = some (PyNum.float v.toQ) :=
  parse_render v.toQ h2 h3

theorem parse_number_roundtrip_short_frac_witness :
    parse_number (PyVal.str (renderFloat (PyNum.float (41 / 2)).toQ)) false
      = some (PyNum.float (PyNum.float (41 / 2)).toQ) :=
  parse_number_roundtrip_short_frac (PyVal.str "20.5") (PyNum.float (41 / 2))
    (by with_unfolding_all rfl) (by norm_num [PyNum.toQ])
    (by with_unfolding_all rfl)
